import Mathlib

/-
Verification of the XZZPCB raw PCB binary decoder
("Layer render/raw_parser.js", the RawPCBParser class, and
"Layer render/part_data_parser.js", the PartDataParser class).

Modelling conventions:
  * Byte buffers are `List Nat`.  A JS `DataView` / `Uint8Array` access that
    can throw a RangeError is modelled in the `Except Err` monad; an exception
    that JS would propagate to the caller is an `Except.error` result.
  * The in-place XOR pass mutates the caller's ArrayBuffer in JS; the decoder
    is therefore modelled as returning the buffer the caller observes after
    the call, alongside the parse result.
  * The module-level mutable flag `isThruHole_part` of part_data_parser.js is
    modelled by threading an explicit `Bool` state through every function that
    can reach the pin parser (it is written there and never read anywhere).
  * Every `while` loop advances the parse offset by at least one byte per
    iteration, so each loop is modelled by structural recursion on an explicit
    fuel argument chosen strictly larger than the possible number of
    iterations; the fuel-exhaustion branches are unreachable for those fuels
    and coincide with the loop-exit result.
-/

/-- RangeError raised by a JS DataView / Uint8Array access out of bounds. -/
inductive Err where
  | overrun (off : Nat) (wanted : Nat)
deriving DecidableEq, Repr

/-- Failure of the DES-ECB/PKCS7 decryption (spec section 4.3). -/
inductive DecryptError where
  | badLength
  | badPadding
deriving DecidableEq, Repr

/-- DataView.getUint8: reads one byte, throws past the end of the buffer. -/
def getU8 (b : List Nat) (i : Nat) : Except Err Nat :=
  if i < b.length then Except.ok (b.getD i 0) else Except.error (Err.overrun i 1)

/-- DataView.getUint16(i, true): little-endian u16, throws past the end. -/
def getU16le (b : List Nat) (i : Nat) : Except Err Nat :=
  if i + 2 ≤ b.length then Except.ok (b.getD i 0 + 256 * b.getD (i+1) 0)
  else Except.error (Err.overrun i 2)

/-- DataView.getUint32(i, true): little-endian u32, throws past the end. -/
def getU32le (b : List Nat) (i : Nat) : Except Err Nat :=
  if i + 4 ≤ b.length then
    Except.ok (b.getD i 0 + 256 * b.getD (i+1) 0 + 65536 * b.getD (i+2) 0
      + 16777216 * b.getD (i+3) 0)
  else Except.error (Err.overrun i 4)

/-- Reinterpret an unsigned 32-bit value as signed (two's complement). -/
def u32ToI32 (v : Nat) : Int :=
  if v < 2147483648 then (v : Int) else (v : Int) - 4294967296

/-- DataView.getInt32(i, true): little-endian i32, throws past the end. -/
def getI32le (b : List Nat) (i : Nat) : Except Err Int :=
  match getU32le b i with
  | Except.ok v => Except.ok (u32ToI32 v)
  | Except.error e => Except.error e

/-- new Uint8Array(buffer, i, n): a view of n bytes, throws past the end. -/
def bytesSlice (b : List Nat) (i n : Nat) : Except Err (List Nat) :=
  if i + n ≤ b.length then Except.ok ((b.drop i).take n)
  else Except.error (Err.overrun i n)

/-- XY_SCALE = 1 in both source files ("10000 if scaling needed"). -/
def XY_SCALE : Nat := 1

/-- The U+FFFD replacement character emitted for invalid UTF-8 sequences. -/
def repChar : Char := Char.ofNat 0xFFFD

/-- Modelled from the spec: the WHATWG TextDecoder('utf-8') used by both
readString implementations is a Web platform API absent from the repository.
Per spec section 4.1, decoding is lossy-tolerant: invalid sequences are
replaced with U+FFFD rather than aborting.  This is the standard UTF-8
decoding with replacement. -/
def utf8DecodeAux : List Nat → List Char
  | [] => []
  | b :: rest =>
    if b < 0x80 then Char.ofNat b :: utf8DecodeAux rest
    else if 0xC2 ≤ b ∧ b ≤ 0xDF then
      match rest with
      | [] => [repChar]
      | c :: r2 =>
        if 0x80 ≤ c ∧ c ≤ 0xBF then
          Char.ofNat ((b - 0xC0) * 64 + (c - 0x80)) :: utf8DecodeAux r2
        else repChar :: utf8DecodeAux (c :: r2)
    else if 0xE0 ≤ b ∧ b ≤ 0xEF then
      match rest with
      | [] => [repChar]
      | c :: r2 =>
        if (if b = 0xE0 then 0xA0 else 0x80) ≤ c ∧ c ≤ (if b = 0xED then 0x9F else 0xBF) then
          match r2 with
          | [] => [repChar, repChar]
          | d :: r3 =>
            if 0x80 ≤ d ∧ d ≤ 0xBF then
              Char.ofNat ((b - 0xE0) * 4096 + (c - 0x80) * 64 + (d - 0x80)) :: utf8DecodeAux r3
            else repChar :: utf8DecodeAux (d :: r3)
        else repChar :: utf8DecodeAux (c :: r2)
    else if 0xF0 ≤ b ∧ b ≤ 0xF4 then
      match rest with
      | [] => [repChar]
      | c :: r2 =>
        if (if b = 0xF0 then 0x90 else 0x80) ≤ c ∧ c ≤ (if b = 0xF4 then 0x8F else 0xBF) then
          match r2 with
          | [] => [repChar, repChar]
          | d :: r3 =>
            if 0x80 ≤ d ∧ d ≤ 0xBF then
              match r3 with
              | [] => [repChar, repChar, repChar]
              | e :: r4 =>
                if 0x80 ≤ e ∧ e ≤ 0xBF then
                  Char.ofNat ((b - 0xF0) * 262144 + (c - 0x80) * 4096 + (d - 0x80) * 64
                    + (e - 0x80)) :: utf8DecodeAux r4
                else repChar :: utf8DecodeAux (e :: r4)
            else repChar :: utf8DecodeAux (d :: r3)
        else repChar :: utf8DecodeAux (c :: r2)
    else repChar :: utf8DecodeAux rest

/-- TextDecoder('utf-8').decode on a byte view. -/
def utf8DecodeLossy (l : List Nat) : String := String.mk (utf8DecodeAux l)

/-- The 11-byte sentinel bounding the XOR-obfuscated prefix (raw_parser.js,
RawPCBParser.parse). -/
def xorSentinel : List Nat := [0x76, 0x36, 0x76, 0x36, 0x35, 0x35, 0x35, 0x76, 0x36, 0x76, 0x36]

/-- Inner loop of RawPCBParser.findSequence: do all bytes of `seq` occur in
`b` starting at index `i`? -/
def matchesAt (b seq : List Nat) (i : Nat) : Bool :=
  (List.range seq.length).all (fun j => b.getD (i + j) 0 == seq.getD j 0)

/-- Outer loop of RawPCBParser.findSequence, scanning candidate start indices
upward from `i` (fuel strictly exceeds the number of remaining candidates). -/
def findSeqAux (b seq : List Nat) : Nat → Nat → Option Nat
  | 0, _ => none
  | fuel+1, i =>
    if i + seq.length ≤ b.length then
      if matchesAt b seq i then some i else findSeqAux b seq fuel (i+1)
    else none

/-- RawPCBParser.findSequence: index of the first occurrence of `seq` in `b`,
`none` for the JS return value -1. -/
def findSequence (b seq : List Nat) : Option Nat := findSeqAux b seq (b.length + 1) 0

/-- The in-place XOR loop of RawPCBParser.parse: every byte at index < endIdx
is replaced by setUint8(i, getUint8(i) ^ key) (setUint8 stores mod 256);
later bytes are untouched.  The index is tracked by decrementing endIdx. -/
def xorApply : List Nat → Nat → Nat → List Nat
  | [], _, _ => []
  | v :: rest, key, endIdx =>
    (if 0 < endIdx then (v ^^^ key) % 256 else v) :: xorApply rest key (endIdx - 1)

/-- The XOR deobfuscation phase at the top of RawPCBParser.parse: if
getUint8(0x10) is nonzero, XOR all bytes before the first sentinel occurrence
(or the whole buffer when the sentinel is absent) with that key byte. -/
def xorPhase (b : List Nat) : Except Err (List Nat) :=
  match getU8 b 0x10 with
  | Except.error e => Except.error e
  | Except.ok key =>
    if key ≠ 0 then
      let endIdx := match findSequence b xorSentinel with
        | some i => i
        | none => b.length
      Except.ok (xorApply b key endIdx)
    else Except.ok b

/-- A pin record produced by PartDataParser.parseSubType09. -/
structure Pin where
  un1 : Nat
  x : Nat
  y : Nat
  innerDiameter : Nat
  rotation : Nat
  nameSize : Nat
  name : String
  width : Nat
  height : Nat
  shape : Nat
  netIndex : Nat
  isThruHolePin : Bool
deriving DecidableEq, Repr

/-- Sub-blocks inside a decrypted DATA payload (PartDataParser). -/
inductive SubBlock where
  | sub01 (blockSize layer x1 y1 radius angleStart angleEnd scale unknownArc : Nat)
  | sub05 (blockSize layer x1 y1 x2 y2 scale : Nat)
  | sub06 (blockSize layer x y fontSize fontScale fontRotation visibility labelSize : Nat)
      (label : String)
  | sub09 (blockSize : Nat) (pins : List Pin)
deriving DecidableEq, Repr

/-- The header of a part payload (PartDataParser.parseHeader). -/
structure PartHeader where
  partSize : Nat
  partX : Nat
  partY : Nat
  partRotation : Nat
  visibility : Nat
  partGroupNameSize : Nat
  partGroupName : String
deriving DecidableEq, Repr

/-- The result object of PartDataParser.parse. -/
structure PartResult where
  header : PartHeader
  subBlocks : List SubBlock
deriving DecidableEq, Repr

/-- ARC block (RawPCBParser.parseType01). -/
structure ArcData where
  layer : Nat
  x1 : Nat
  y1 : Nat
  r : Int
  angleStart : Int
  angleEnd : Int
  scale : Int
  netIndex : Int
deriving DecidableEq, Repr

/-- VIA block (RawPCBParser.parseType02). -/
structure ViaData where
  x : Int
  y : Int
  outerRadius : Int
  innerRadius : Int
  layerAIndex : Nat
  layerBIndex : Nat
  netIndex : Nat
  viaText : String
deriving DecidableEq, Repr

/-- SEGMENT block (RawPCBParser.parseType05). -/
structure SegmentData where
  layer : Nat
  x1 : Int
  y1 : Int
  x2 : Int
  y2 : Int
  scale : Int
  netIndex : Nat
deriving DecidableEq, Repr

/-- TEXT block (RawPCBParser.parseType06). -/
structure TextData where
  unknown1 : Nat
  posX : Nat
  posY : Nat
  textSize : Nat
  divider : Nat
  empty : Nat
  one : Nat
  textLength : Nat
  text : String
deriving DecidableEq, Repr

/-- DATA block (RawPCBParser.parseType07): raw ciphertext, the bytes after the
decryption attempt, and the optional part parse result (null on a part-parser
exception). -/
structure DataBlock where
  blockSize : Nat
  encryptedData : List Nat
  decryptedData : List Nat
  parsedData : Option PartResult
deriving DecidableEq, Repr

/-- A parsed main-region block. -/
inductive Block where
  | arc (a : ArcData)
  | via (v : ViaData)
  | segment (s : SegmentData)
  | text (t : TextData)
  | data (d : DataBlock)
deriving DecidableEq, Repr

/-- The object returned by RawPCBParser.parse: { main_data_block: blocks }. -/
structure Board where
  mainDataBlock : List Block
deriving DecidableEq, Repr

/-- readString(length) as implemented identically in both RawPCBParser and
PartDataParser: returns '' for length 0 before any buffer access, otherwise
takes a view of the next `length` bytes (which throws past the end) and
decodes it with TextDecoder.  Returns the string and the advanced offset. -/
def readString (b : List Nat) (off n : Nat) : Except Err (String × Nat) :=
  if n = 0 then Except.ok ("", off)
  else
    match bytesSlice b off n with
    | Except.error e => Except.error e
    | Except.ok bs => Except.ok (utf8DecodeLossy bs, off + n)

/-- PartDataParser.pin_block_size: initialised to 0 in the constructor and in
init(), and never assigned anywhere else (parseSubType09 uses a local
blockSize instead), so it is the constant 0. -/
def pinBlockSize : Nat := 0

/-- PartDataParser.parseHeader.  At entry this.offset = 0; reads part_size at
0, skips 4 bytes of padding, reads part_x/part_y/part_rotation at 8/12/16,
visibility as u8 at 20 plus one padding byte, part_group_name_size at 22, and
the group name (if any) from offset 26. -/
def PartDataParser.parseHeader (b : List Nat) : Except Err (PartHeader × Nat) :=
  match getU32le b 0 with
  | Except.error e => Except.error e
  | Except.ok partSize =>
  match getU32le b 8 with
  | Except.error e => Except.error e
  | Except.ok partX =>
  match getU32le b 12 with
  | Except.error e => Except.error e
  | Except.ok partY =>
  match getU32le b 16 with
  | Except.error e => Except.error e
  | Except.ok partRotation =>
  match getU8 b 20 with
  | Except.error e => Except.error e
  | Except.ok visibility =>
  match getU32le b 22 with
  | Except.error e => Except.error e
  | Except.ok nameSize =>
  if nameSize > 0 then
    match readString b 26 nameSize with
    | Except.error e => Except.error e
    | Except.ok (nm, off2) =>
      Except.ok (⟨partSize, partX, partY, partRotation, visibility, nameSize, nm⟩, off2)
  else Except.ok (⟨partSize, partX, partY, partRotation, visibility, nameSize, ""⟩, 26)

/-- PartDataParser.parseSubType01 (part arc): nine u32 fields starting at the
byte after the tag; advances the cursor by 36. -/
def PartDataParser.parseSubType01 (b : List Nat) (off : Nat) : Except Err (SubBlock × Nat) := do
  let blockSize ← getU32le b off
  let layer ← getU32le b (off+4)
  let x1 ← getU32le b (off+8)
  let y1 ← getU32le b (off+12)
  let radius ← getU32le b (off+16)
  let angleStart ← getU32le b (off+20)
  let angleEnd ← getU32le b (off+24)
  let scale ← getU32le b (off+28)
  let unknownArc ← getU32le b (off+32)
  pure (SubBlock.sub01 blockSize layer (x1 / XY_SCALE) (y1 / XY_SCALE) (radius / XY_SCALE)
    (angleStart / XY_SCALE) (angleEnd / XY_SCALE) (scale / XY_SCALE) (unknownArc / XY_SCALE),
    off + 36)

/-- PartDataParser.parseSubType05 (part line): seven u32 fields, then a
4-byte trailing padding skip; advances the cursor by 32. -/
def PartDataParser.parseSubType05 (b : List Nat) (off : Nat) : Except Err (SubBlock × Nat) := do
  let blockSize ← getU32le b off
  let layer ← getU32le b (off+4)
  let x1 ← getU32le b (off+8)
  let y1 ← getU32le b (off+12)
  let x2 ← getU32le b (off+16)
  let y2 ← getU32le b (off+20)
  let scale ← getU32le b (off+24)
  pure (SubBlock.sub05 blockSize layer (x1 / XY_SCALE) (y1 / XY_SCALE) (x2 / XY_SCALE)
    (y2 / XY_SCALE) (scale / XY_SCALE), off + 28 + 4)

/-- PartDataParser.parseSubType06 (part label): seven u32 fields, a u8
visibility plus one padding byte, the u32 label_size, then the label text. -/
def PartDataParser.parseSubType06 (b : List Nat) (off : Nat) : Except Err (SubBlock × Nat) := do
  let blockSize ← getU32le b off
  let layer ← getU32le b (off+4)
  let x ← getU32le b (off+8)
  let y ← getU32le b (off+12)
  let fontSize ← getU32le b (off+16)
  let fontScale ← getU32le b (off+20)
  let fontRotation ← getU32le b (off+24)
  let visibility ← getU8 b (off+28)
  let labelSize ← getU32le b (off+30)
  let lb ← if labelSize > 0 then readString b (off+34) labelSize
    else pure ("", off + 34)
  pure (SubBlock.sub06 blockSize layer (x / XY_SCALE) (y / XY_SCALE) (fontSize / XY_SCALE)
    (fontScale / XY_SCALE) (fontRotation / XY_SCALE) visibility labelSize lb.1, lb.2)

/-- The pin-reading while loop of PartDataParser.parseSubType09.  `cbs` is
this.cur_block_size (the type-07 block size) and `bs` the pin array's own
block_size.  Each pin reads 24 bytes of fixed fields, the name, 8 bytes of
width/height, the shape byte, a 24-byte skip past shape, the u32 net_index
and a final 13-byte skip (49 bytes after the name).  The module-level
isThruHole_part flag is the threaded `g`, assigned right after
inner_diameter is read.  Fuel exceeds the iteration count since the cursor
grows by at least 73 per pin. -/
def PartDataParser.pinLoop (b : List Nat) (cbs bs : Nat) :
    Nat → Nat → Bool → (Except Err (List Pin × Nat)) × Bool
  | 0, off, g => (Except.ok ([], off), g)
  | fuel+1, off, g =>
    if off + bs ≤ cbs then
      match getU32le b off with
      | Except.error e => (Except.error e, g)
      | Except.ok un1 =>
      match getU32le b (off+4) with
      | Except.error e => (Except.error e, g)
      | Except.ok x =>
      match getU32le b (off+8) with
      | Except.error e => (Except.error e, g)
      | Except.ok y =>
      match getU32le b (off+12) with
      | Except.error e => (Except.error e, g)
      | Except.ok inner =>
      let innerDiameter := inner / XY_SCALE
      let isThruHolePin := innerDiameter != 0
      let g2 := isThruHolePin
      match getU32le b (off+16) with
      | Except.error e => (Except.error e, g2)
      | Except.ok pinRotation =>
      match getU32le b (off+20) with
      | Except.error e => (Except.error e, g2)
      | Except.ok pinNameSize =>
      match readString b (off+24) pinNameSize with
      | Except.error e => (Except.error e, g2)
      | Except.ok (pinName, off2) =>
      match getU32le b off2 with
      | Except.error e => (Except.error e, g2)
      | Except.ok width =>
      match getU32le b (off2+4) with
      | Except.error e => (Except.error e, g2)
      | Except.ok height =>
      match getU8 b (off2+8) with
      | Except.error e => (Except.error e, g2)
      | Except.ok shape =>
      match getU32le b (off2+32) with
      | Except.error e => (Except.error e, g2)
      | Except.ok netIndex =>
      let pin : Pin := ⟨un1, x / XY_SCALE, y / XY_SCALE, innerDiameter,
        pinRotation / XY_SCALE, pinNameSize, pinName, width / XY_SCALE,
        height / XY_SCALE, shape, netIndex, isThruHolePin⟩
      match PartDataParser.pinLoop b cbs bs fuel (off2 + 36 + 13) g2 with
      | (Except.error e, g3) => (Except.error e, g3)
      | (Except.ok (pins, offEnd), g3) => (Except.ok (pin :: pins, offEnd), g3)
    else (Except.ok ([], off), g)

/-- PartDataParser.parseSubType09 (pin array): reads the u32 block_size and
then runs the pin loop. -/
def PartDataParser.parseSubType09 (b : List Nat) (cbs off : Nat) (g : Bool) :
    (Except Err (SubBlock × Nat)) × Bool :=
  match getU32le b off with
  | Except.error e => (Except.error e, g)
  | Except.ok blockSize =>
    match PartDataParser.pinLoop b cbs blockSize (cbs + 1) (off + 4) g with
    | (Except.error e, g2) => (Except.error e, g2)
    | (Except.ok (pins, offEnd), g2) => (Except.ok (SubBlock.sub09 blockSize pins, offEnd), g2)

/-- The sub-block while loop of PartDataParser.parse over the trimmed view:
while offset + pin_block_size < view length (with a redundant break when
offset reaches the view length), read a tag byte and dispatch to the
sub-type handlers; an unrecognised tag logs a warning and breaks. -/
def PartDataParser.subWalk (view : List Nat) (cbs : Nat) :
    Nat → Nat → Bool → (Except Err (List SubBlock)) × Bool
  | 0, _, g => (Except.ok [], g)
  | fuel+1, off, g =>
    if off + pinBlockSize < view.length then
      if off ≥ view.length then (Except.ok [], g)
      else
        match view.getD off 0 with
        | 1 =>
          match PartDataParser.parseSubType01 view (off+1) with
          | Except.error e => (Except.error e, g)
          | Except.ok (sb, off2) =>
            match PartDataParser.subWalk view cbs fuel off2 g with
            | (Except.error e, g3) => (Except.error e, g3)
            | (Except.ok rest, g3) => (Except.ok (sb :: rest), g3)
        | 5 =>
          match PartDataParser.parseSubType05 view (off+1) with
          | Except.error e => (Except.error e, g)
          | Except.ok (sb, off2) =>
            match PartDataParser.subWalk view cbs fuel off2 g with
            | (Except.error e, g3) => (Except.error e, g3)
            | (Except.ok rest, g3) => (Except.ok (sb :: rest), g3)
        | 6 =>
          match PartDataParser.parseSubType06 view (off+1) with
          | Except.error e => (Except.error e, g)
          | Except.ok (sb, off2) =>
            match PartDataParser.subWalk view cbs fuel off2 g with
            | (Except.error e, g3) => (Except.error e, g3)
            | (Except.ok rest, g3) => (Except.ok (sb :: rest), g3)
        | 9 =>
          match PartDataParser.parseSubType09 view cbs (off+1) g with
          | (Except.error e, g2) => (Except.error e, g2)
          | (Except.ok (sb, off2), g2) =>
            match PartDataParser.subWalk view cbs fuel off2 g2 with
            | (Except.error e, g3) => (Except.error e, g3)
            | (Except.ok rest, g3) => (Except.ok (sb :: rest), g3)
        | _ => (Except.ok [], g)
    else (Except.ok [], g)

/-- PartDataParser.parse: reads the header from the full buffer, truncates
the view to arrayBuffer.slice(0, 4 + part_size) (JS slice clamps to the
buffer length), and walks the sub-blocks from the post-header offset.  The
sub-walk fuel 4 + part_size + 1 strictly exceeds the view length and hence
the iteration count. -/
def PartDataParser.parse (buf : List Nat) (t07 : Nat) (g : Bool) :
    (Except Err PartResult) × Bool :=
  match PartDataParser.parseHeader buf with
  | Except.error e => (Except.error e, g)
  | Except.ok (hdr, off1) =>
    match PartDataParser.subWalk (buf.take (4 + hdr.partSize)) t07
        (4 + hdr.partSize + 1) off1 g with
    | (Except.error e, g2) => (Except.error e, g2)
    | (Except.ok subs, g2) => (Except.ok ⟨hdr, subs⟩, g2)

/-- Helper for the DES model: apply the per-block decryption to each 8-byte
block of the ciphertext (ECB).  The final non-multiple-of-8 case is
unreachable under the length check in desDecrypt. -/
def desECB (des : List Nat → List Nat) : List Nat → List Nat
  | a :: b :: c :: d :: e :: f :: g :: h :: rest => des [a, b, c, d, e, f, g, h] ++ desECB des rest
  | [] => []
  | l => des l

/-- Modelled from the spec: RawPCBParser.decryptWithDES delegates to the
CryptoJS library (DES, mode ECB, padding PKCS7, fixed key DC FC 12 AC 00 00
00 00), which is not part of the repository.  Per spec section 4.3 it takes
ciphertext whose length must be divisible by 8 (failure kind BadLength),
decrypts block-wise, and strips PKCS#7 padding from the output (failure kind
BadPadding).  The DES block permutation under the fixed key is abstracted as
the parameter `des`; no claim below depends on its value. -/
def desDecrypt (des : List Nat → List Nat) (ct : List Nat) : Except DecryptError (List Nat) :=
  if ct.length % 8 ≠ 0 then Except.error DecryptError.badLength
  else
    let pt := desECB des ct
    match pt.getLast? with
    | none => Except.error DecryptError.badPadding
    | some n =>
      if 1 ≤ n ∧ n ≤ 8 ∧ n ≤ pt.length ∧ ((pt.drop (pt.length - n)).all (fun v => v == n))
      then Except.ok (pt.take (pt.length - n))
      else Except.error DecryptError.badPadding

/-- An arbitrary instantiation of the abstract DES block permutation, used
only to evaluate the model on concrete inputs. -/
def desId : List Nat → List Nat := fun l => l

/-- RawPCBParser.parseType01 (ARC): block_size and eight fields; layer, x1,
y1 are getUint32, the rest getInt32.  Advances by 36 bytes. -/
def RawPCBParser.parseType01 (b : List Nat) (off : Nat) : Except Err (Option Block × Nat) := do
  let _blockSize ← getU32le b off
  let layer ← getU32le b (off+4)
  let x1 ← getU32le b (off+8)
  let y1 ← getU32le b (off+12)
  let r ← getI32le b (off+16)
  let angleStart ← getI32le b (off+20)
  let angleEnd ← getI32le b (off+24)
  let scale ← getI32le b (off+28)
  let netIndex ← getI32le b (off+32)
  pure (some (Block.arc ⟨layer, x1 / XY_SCALE, y1 / XY_SCALE, r / (XY_SCALE : Int),
    angleStart / (XY_SCALE : Int), angleEnd / (XY_SCALE : Int), scale / (XY_SCALE : Int),
    netIndex⟩), off + 36)

/-- RawPCBParser.parseType02 (VIA): block_size, four getInt32 coordinates,
three getUint32 indices, the u32 text length and the text bytes. -/
def RawPCBParser.parseType02 (b : List Nat) (off : Nat) : Except Err (Option Block × Nat) := do
  let _blockSize ← getU32le b off
  let x ← getI32le b (off+4)
  let y ← getI32le b (off+8)
  let outerRadius ← getI32le b (off+12)
  let innerRadius ← getI32le b (off+16)
  let layerAIndex ← getU32le b (off+20)
  let layerBIndex ← getU32le b (off+24)
  let netIndex ← getU32le b (off+28)
  let viaTextLength ← getU32le b (off+32)
  let st ← readString b (off+36) viaTextLength
  pure (some (Block.via ⟨x / (XY_SCALE : Int), y / (XY_SCALE : Int),
    outerRadius / (XY_SCALE : Int), innerRadius / (XY_SCALE : Int),
    layerAIndex, layerBIndex, netIndex, st.1⟩), st.2)

/-- RawPCBParser.parseType03: length-prefixed skip, returns null. -/
def RawPCBParser.parseType03 (b : List Nat) (off : Nat) : Except Err (Option Block × Nat) := do
  let blockSize ← getU32le b off
  pure (none, off + 4 + blockSize)

/-- RawPCBParser.parseType05 (SEGMENT): block_size, layer u32, five getInt32
fields, net index u32.  Advances by 32 bytes. -/
def RawPCBParser.parseType05 (b : List Nat) (off : Nat) : Except Err (Option Block × Nat) := do
  let _blockSize ← getU32le b off
  let layer ← getU32le b (off+4)
  let x1 ← getI32le b (off+8)
  let y1 ← getI32le b (off+12)
  let x2 ← getI32le b (off+16)
  let y2 ← getI32le b (off+20)
  let scale ← getI32le b (off+24)
  let traceNetIndex ← getU32le b (off+28)
  pure (some (Block.segment ⟨layer, x1 / (XY_SCALE : Int), y1 / (XY_SCALE : Int),
    x2 / (XY_SCALE : Int), y2 / (XY_SCALE : Int), scale / (XY_SCALE : Int),
    traceNetIndex⟩), off + 32)

/-- RawPCBParser.parseType06 (TEXT): seven u32 fields, a u16, the u32 text
length and the text bytes. -/
def RawPCBParser.parseType06 (b : List Nat) (off : Nat) : Except Err (Option Block × Nat) := do
  let _blockSize ← getU32le b off
  let unknown1 ← getU32le b (off+4)
  let posX ← getU32le b (off+8)
  let posY ← getU32le b (off+12)
  let textSize ← getU32le b (off+16)
  let divider ← getU32le b (off+20)
  let empty ← getU32le b (off+24)
  let one ← getU16le b (off+28)
  let textLength ← getU32le b (off+30)
  let st ← readString b (off+34) textLength
  pure (some (Block.text ⟨unknown1, posX / XY_SCALE, posY / XY_SCALE, textSize / XY_SCALE,
    divider, empty, one, textLength, st.1⟩), st.2)

/-- RawPCBParser.parseType07 (DATA): reads the u32 block_size and a view of
exactly block_size ciphertext bytes (both outside any try/catch, so their
RangeErrors propagate).  Tries DES decryption; on failure the code sets
decryptedData = encryptedData, whose .buffer property is the WHOLE post-XOR
file buffer, so the subsequent part parse runs on `b` from offset 0.  On
success the fresh plaintext array is its own buffer.  A part-parser
exception is caught and leaves parsed_data null.  `g` is the module-level
isThruHole_part state, which the part parser may update. -/
def RawPCBParser.parseType07 (des : List Nat → List Nat) (b : List Nat) (off : Nat)
    (g : Bool) : (Except Err (Option Block × Nat)) × Bool :=
  match getU32le b off with
  | Except.error e => (Except.error e, g)
  | Except.ok blockSize =>
    match bytesSlice b (off+4) blockSize with
    | Except.error e => (Except.error e, g)
    | Except.ok encrypted =>
      match desDecrypt des encrypted with
      | Except.ok d =>
        match PartDataParser.parse d blockSize g with
        | (Except.ok r, g2) =>
          (Except.ok (some (Block.data ⟨blockSize, encrypted, d, some r⟩), off + 4 + blockSize), g2)
        | (Except.error _, g2) =>
          (Except.ok (some (Block.data ⟨blockSize, encrypted, d, none⟩), off + 4 + blockSize), g2)
      | Except.error _ =>
        match PartDataParser.parse b blockSize g with
        | (Except.ok r, g2) =>
          (Except.ok (some (Block.data ⟨blockSize, encrypted, encrypted, some r⟩),
            off + 4 + blockSize), g2)
        | (Except.error _, g2) =>
          (Except.ok (some (Block.data ⟨blockSize, encrypted, encrypted, none⟩),
            off + 4 + blockSize), g2)

/-- RawPCBParser.parseType09: length-prefixed skip, returns null. -/
def RawPCBParser.parseType09 (b : List Nat) (off : Nat) : Except Err (Option Block × Nat) := do
  let blockSize ← getU32le b off
  pure (none, off + 4 + blockSize)

/-- The while loop of RawPCBParser.parseMainDataBlocks: while offset < endOff
and offset < buffer length, first check the next u32 for 4-byte zero padding
(this read can throw near the end of the buffer and the RangeError
propagates), otherwise consume the tag byte (in bounds by the loop guard) and
dispatch.  Tags 0x04 and 0x08 run an inline handler that advances one more
byte past the tag and returns null; an unknown tag logs a warning and the
loop CONTINUES at the next byte.  Handlers returning null append nothing. -/
def RawPCBParser.walkLoop (des : List Nat → List Nat) (buf : List Nat) (endOff : Nat) :
    Nat → Nat → Bool → (Except Err (List Block)) × Bool
  | 0, _, g => (Except.ok [], g)
  | fuel+1, off, g =>
    if off < endOff ∧ off < buf.length then
      match getU32le buf off with
      | Except.error e => (Except.error e, g)
      | Except.ok pad =>
        if pad = 0 then RawPCBParser.walkLoop des buf endOff fuel (off+4) g
        else
          match buf.getD off 0 with
          | 1 =>
            match RawPCBParser.parseType01 buf (off+1) with
            | Except.error e => (Except.error e, g)
            | Except.ok (ob, off2) =>
              match RawPCBParser.walkLoop des buf endOff fuel off2 g with
              | (Except.error e, g2) => (Except.error e, g2)
              | (Except.ok rest, g2) =>
                (Except.ok (match ob with | some blk => blk :: rest | none => rest), g2)
          | 2 =>
            match RawPCBParser.parseType02 buf (off+1) with
            | Except.error e => (Except.error e, g)
            | Except.ok (ob, off2) =>
              match RawPCBParser.walkLoop des buf endOff fuel off2 g with
              | (Except.error e, g2) => (Except.error e, g2)
              | (Except.ok rest, g2) =>
                (Except.ok (match ob with | some blk => blk :: rest | none => rest), g2)
          | 3 =>
            match RawPCBParser.parseType03 buf (off+1) with
            | Except.error e => (Except.error e, g)
            | Except.ok (ob, off2) =>
              match RawPCBParser.walkLoop des buf endOff fuel off2 g with
              | (Except.error e, g2) => (Except.error e, g2)
              | (Except.ok rest, g2) =>
                (Except.ok (match ob with | some blk => blk :: rest | none => rest), g2)
          | 4 => RawPCBParser.walkLoop des buf endOff fuel (off+2) g
          | 5 =>
            match RawPCBParser.parseType05 buf (off+1) with
            | Except.error e => (Except.error e, g)
            | Except.ok (ob, off2) =>
              match RawPCBParser.walkLoop des buf endOff fuel off2 g with
              | (Except.error e, g2) => (Except.error e, g2)
              | (Except.ok rest, g2) =>
                (Except.ok (match ob with | some blk => blk :: rest | none => rest), g2)
          | 6 =>
            match RawPCBParser.parseType06 buf (off+1) with
            | Except.error e => (Except.error e, g)
            | Except.ok (ob, off2) =>
              match RawPCBParser.walkLoop des buf endOff fuel off2 g with
              | (Except.error e, g2) => (Except.error e, g2)
              | (Except.ok rest, g2) =>
                (Except.ok (match ob with | some blk => blk :: rest | none => rest), g2)
          | 7 =>
            match RawPCBParser.parseType07 des buf (off+1) g with
            | (Except.error e, g2) => (Except.error e, g2)
            | (Except.ok (ob, off2), g2) =>
              match RawPCBParser.walkLoop des buf endOff fuel off2 g2 with
              | (Except.error e, g3) => (Except.error e, g3)
              | (Except.ok rest, g3) =>
                (Except.ok (match ob with | some blk => blk :: rest | none => rest), g3)
          | 8 => RawPCBParser.walkLoop des buf endOff fuel (off+2) g
          | 9 =>
            match RawPCBParser.parseType09 buf (off+1) with
            | Except.error e => (Except.error e, g)
            | Except.ok (ob, off2) =>
              match RawPCBParser.walkLoop des buf endOff fuel off2 g with
              | (Except.error e, g2) => (Except.error e, g2)
              | (Except.ok rest, g2) =>
                (Except.ok (match ob with | some blk => blk :: rest | none => rest), g2)
          | _ => RawPCBParser.walkLoop des buf endOff fuel (off+1) g
    else (Except.ok [], g)

/-- RawPCBParser.parse, the decode entrypoint.  Runs the XOR phase in place
on the caller's buffer (the returned List Nat is the buffer the caller
observes afterwards; on a RangeError while reading byte 0x10 nothing has been
written yet).  Then parseFileHeader reads main_data_blocks_size as u32 at
0x40 and sets the cursor to 0x44, and the main-region walk runs to
0x44 + main_size with fuel strictly exceeding the iteration count (every
iteration advances the offset by at least one).  No later pass writes to the
buffer. -/
def RawPCBParser.parse (des : List Nat → List Nat) (b : List Nat) (g : Bool) :
    (Except Err Board) × List Nat × Bool :=
  match xorPhase b with
  | Except.error e => (Except.error e, b, g)
  | Except.ok b2 =>
    match getU32le b2 0x40 with
    | Except.error e => (Except.error e, b2, g)
    | Except.ok mainSize =>
      match RawPCBParser.walkLoop des b2 (0x44 + mainSize) (0x44 + mainSize + 1) 0x44 g with
      | (Except.error e, g2) => (Except.error e, b2, g2)
      | (Except.ok blocks, g2) => (Except.ok ⟨blocks⟩, b2, g2)

deriving instance DecidableEq for Except

/-- Spec-side predicate: `seq` occurs in `b` starting at index `i`. -/
def occursAt (b seq : List Nat) (i : Nat) : Prop :=
  (b.drop i).take seq.length = seq

/-- Spec-side predicate for the end of the obfuscated prefix: `e` is the
index of the first occurrence of the XOR sentinel in `b`, or `b.length` when
the sentinel does not occur at all. -/
def isFirstSentinelEnd (b : List Nat) (e : Nat) : Prop :=
  (occursAt b xorSentinel e ∧ ∀ j, j < e → ¬ occursAt b xorSentinel j) ∨
  (e = b.length ∧ ∀ j, ¬ occursAt b xorSentinel j)

/-- Witness input for the short-input theorem: three bytes. -/
def c1wit : List Nat := [0, 0, 0]

/-- C2 input: a file whose single DATA block has a 7-byte ciphertext (DES
BadLength), and whose file prefix, reinterpreted as a part payload through
the decryptedData.buffer aliasing, parses to one sub-block.  Byte 0 is
part_size 62, byte 26 the sub-tag 0x05, bytes 0x40..0x43 the main region
size 12, byte 0x44 the tag 0x07, bytes 0x45..0x48 the block size 7, and
bytes 0x49..0x4F the ciphertext. -/
def c2file : List Nat :=
  [62] ++ List.replicate 25 0 ++ [5] ++ List.replicate 37 0 ++
  [12, 0, 0, 0] ++ [7] ++ [7, 0, 0, 0] ++ [9, 9, 9, 9, 9, 9, 9]

/-- The 7-byte ciphertext of the DATA block in c2file. -/
def c2ct : List Nat := [9, 9, 9, 9, 9, 9, 9]

/-- The part header read from offset 0 of c2file. -/
def c2hdr : PartHeader := ⟨62, 0, 0, 0, 0, 0, ""⟩

/-- C3 input: main region of size 34 holding an unknown tag byte 0x0A at
0x44 immediately followed by a well-formed SEGMENT block at 0x45. -/
def c3file : List Nat :=
  List.replicate 64 0 ++ [34, 0, 0, 0] ++ [10, 5] ++
  [28, 0, 0, 0, 1, 0, 0, 0, 100, 0, 0, 0, 200, 0, 0, 0,
   44, 1, 0, 0, 144, 1, 0, 0, 32, 78, 0, 0, 7, 0, 0, 0]

/-- The SEGMENT encoded at offset 0x45 of c3file (and 0x45 of c5file). -/
def c3seg : SegmentData := ⟨1, 100, 200, 300, 400, 20000, 7⟩

/-- Witness input for the XOR theorem: key byte 0x5A at offset 0x10, no
sentinel occurrence. -/
def c4wit : List Nat := List.replicate 16 0 ++ [90, 1, 2, 3]

/-- C5 input: main region of size 2 holding the tag 0x04 at 0x44 followed by
the byte 0x05 at 0x45, after which a well-formed SEGMENT payload follows
(outside the main region but inside the buffer). -/
def c5file : List Nat :=
  List.replicate 64 0 ++ [2, 0, 0, 0] ++ [4, 5] ++
  [28, 0, 0, 0, 1, 0, 0, 0, 100, 0, 0, 0, 200, 0, 0, 0,
   44, 1, 0, 0, 144, 1, 0, 0, 32, 78, 0, 0, 7, 0, 0, 0]

/-- C6 input: 17 bytes, all zero except byte 0x10 = 1 (obfuscated, key 1). -/
def c6file : List Nat := List.replicate 16 0 ++ [1]

/-- Witness inputs for the part-walker theorem (same layout as c2file). -/
def c7buf : List Nat :=
  [62] ++ List.replicate 25 0 ++ [5] ++ List.replicate 37 0 ++
  [12, 0, 0, 0] ++ [7] ++ [7, 0, 0, 0] ++ [9, 9, 9, 9, 9, 9, 9]

/-- The part header read from offset 0 of c7buf. -/
def c7hdr : PartHeader := ⟨62, 0, 0, 0, 0, 0, ""⟩

/-- A two-byte view whose first byte is an unknown sub-tag. -/
def c7view : List Nat := [0, 0]

/-- C8 input: a VIA block whose text length field is 1 and whose single text
byte 0xFF is not valid UTF-8. -/
def c8file : List Nat :=
  List.replicate 64 0 ++ [38, 0, 0, 0] ++ [2] ++ [37, 0, 0, 0] ++
  List.replicate 28 0 ++ [1, 0, 0, 0] ++ [255]

/-- The VIA entity decoded from c8file: its text is the single replacement
character U+FFFD, whose UTF-8 byte length is 3 although the size field read
before it was 1. -/
def c8via : ViaData := ⟨0, 0, 0, 0, 0, 0, 0, "�"⟩

/-- Witness input for the string-consumption theorem. -/
def c8wit : List Nat := [65]

/-- Witness input for the pin theorem: a 64-byte view holding one pin whose
inner_diameter (u32 at offset 16) is 3. -/
def c9view : List Nat := List.replicate 16 0 ++ [3, 0, 0, 0] ++ List.replicate 44 0

/-- The pin decoded from c9view. -/
def c9pin : Pin := ⟨0, 0, 0, 3, 0, 0, "", 0, 0, 0, 0, true⟩

/-- The SEGMENT encoded at offset 0x46 of c5file. -/
def c5seg : SegmentData := ⟨1, 100, 200, 300, 400, 20000, 7⟩

/-- Witness input for the buffer-state theorem: 17 zero bytes (clear file). -/
def c6wit : List Nat := List.replicate 17 0

/-- An occurrence of `seq` at index `j` forces `seq` to fit inside `b`. -/
theorem occursAt_length_le (b seq : List Nat) (j : Nat) (h : occursAt b seq j) :
    seq.length ≤ b.length - j := by
  have := congrArg List.length h
  simp only [List.length_take, List.length_drop] at this
  omega

/-- The inner comparison loop of findSequence agrees with the occurrence
predicate on in-range candidates. -/
theorem matchesAt_true_iff (b seq : List Nat) (i : Nat) (h : i + seq.length ≤ b.length) :
    matchesAt b seq i = true ↔ occursAt b seq i := by
  simp only [matchesAt, List.all_eq_true, List.mem_range, beq_iff_eq]
  constructor
  · intro hall
    apply List.ext_getElem
    · simp only [List.length_take, List.length_drop]
      omega
    · intro j hj1 hj2
      have hj : j < seq.length := hj2
      have hb : i + j < b.length := by omega
      have := hall j hj
      rw [List.getD_eq_getElem b 0 hb, List.getD_eq_getElem seq 0 hj] at this
      simpa [List.getElem_take, List.getElem_drop] using this
  · intro hocc j hj
    have hb : i + j < b.length := by omega
    have hj2 : j < ((b.drop i).take seq.length).length := by
      simp only [List.length_take, List.length_drop]
      omega
    have h2 := congrArg (fun l => List.getD l j 0) hocc
    simp only [] at h2
    rw [List.getD_eq_getElem _ 0 hj2, List.getD_eq_getElem seq 0 hj] at h2
    rw [List.getD_eq_getElem b 0 hb, List.getD_eq_getElem seq 0 hj]
    rw [← h2]
    simp [List.getElem_take, List.getElem_drop]

/-- The scanning loop of findSequence returns the first occurrence at or
after `i`, and returns none exactly when there is none, provided the fuel
covers the remaining candidates. -/
theorem findSeqAux_spec (b seq : List Nat) (hseq : seq ≠ []) :
    ∀ fuel i, b.length + 1 ≤ fuel + i →
      (∀ k, findSeqAux b seq fuel i = some k →
        occursAt b seq k ∧ i ≤ k ∧ ∀ j, i ≤ j → j < k → ¬ occursAt b seq j) ∧
      (findSeqAux b seq fuel i = none → ∀ j, i ≤ j → ¬ occursAt b seq j) := by
  have hpos : 0 < seq.length := List.length_pos.mpr hseq
  intro fuel
  induction fuel with
  | zero =>
    intro i hfi
    refine ⟨fun k hk => (by simp [findSeqAux] at hk), fun _ j hj hocc => ?_⟩
    have := occursAt_length_le b seq j hocc
    omega
  | succ n ih =>
    intro i hfi
    constructor
    · intro k hk
      simp only [findSeqAux] at hk
      split at hk
      · split at hk
        · have hki : k = i := by injection hk with hh; omega
          subst hki
          refine ⟨(matchesAt_true_iff b seq k (by assumption)).mp (by assumption), le_refl k, ?_⟩
          intro j hj1 hj2
          omega
        · have := (ih (i+1) (by omega)).1 k hk
          refine ⟨this.1, by omega, ?_⟩
          intro j hj1 hj2
          by_cases hji : j = i
          · subst hji
            intro hocc
            have hm := (matchesAt_true_iff b seq j (by assumption)).mpr hocc
            simp_all
          · exact this.2.2 j (by omega) hj2
      · cases hk
    · intro hk j hj hocc
      simp only [findSeqAux] at hk
      split at hk
      · split at hk
        · cases hk
        · refine (ih (i+1) (by omega)).2 hk j ?_ hocc
          by_cases hji : j = i
          · subst hji
            have hm := (matchesAt_true_iff b seq j (by assumption)).mpr hocc
            simp_all
          · omega
      · have := occursAt_length_le b seq j hocc
        have hjb : j + seq.length ≤ b.length := by omega
        omega

/-- findSequence finds exactly the first occurrence of a nonempty needle. -/
theorem findSequence_spec (b seq : List Nat) (hseq : seq ≠ []) :
    (∀ k, findSequence b seq = some k →
      occursAt b seq k ∧ ∀ j, j < k → ¬ occursAt b seq j) ∧
    (findSequence b seq = none → ∀ j, ¬ occursAt b seq j) := by
  have h := findSeqAux_spec b seq hseq (b.length + 1) 0 (by omega)
  refine ⟨fun k hk => ?_, fun hk j => h.2 hk j (Nat.zero_le j)⟩
  have := h.1 k hk
  exact ⟨this.1, fun j hj => this.2.2 j (Nat.zero_le j) hj⟩

/-- The XOR loop preserves the buffer length. -/
theorem xorApply_length (l : List Nat) : ∀ key e, (xorApply l key e).length = l.length := by
  induction l with
  | nil => intro key e; rfl
  | cons v rest ih => intro key e; simp [xorApply, ih]

/-- Pointwise description of the XOR loop on in-range indices. -/
theorem xorApply_getD (l : List Nat) : ∀ key e i, i < l.length →
    (xorApply l key e).getD i 0 = if i < e then (l.getD i 0 ^^^ key) % 256 else l.getD i 0 := by
  induction l with
  | nil => intro key e i h; simp at h
  | cons v rest ih =>
    intro key e i h
    cases i with
    | zero =>
      cases e with
      | zero => simp [xorApply]
      | succ e2 => simp [xorApply]
    | succ i2 =>
      have h2 : i2 < rest.length := by simp at h; omega
      cases e with
      | zero =>
        simp only [xorApply, List.getD_cons_succ]
        rw [ih key 0 i2 h2]
        simp
      | succ e2 =>
        simp only [xorApply, List.getD_cons_succ, Nat.add_sub_cancel]
        rw [ih key e2 i2 h2]
        by_cases hie : i2 < e2
        · rw [if_pos hie, if_pos (by omega)]
        · rw [if_neg hie, if_neg (by omega)]

/-- XOR of two bytes is a byte. -/
theorem byte_xor_lt_256 (a k : Nat) (ha : a < 256) (hk : k < 256) : a ^^^ k < 256 := by
  have h256 : (256 : Nat) = 2 ^ 8 := by norm_num
  rw [h256] at ha hk ⊢
  exact Nat.xor_lt_two_pow ha hk

/-- Every pin emitted by the pin loop carries the derived through-hole flag. -/
theorem pinLoop_thru (b : List Nat) (cbs bs : Nat) :
    ∀ fuel off g pins offEnd gOut,
      PartDataParser.pinLoop b cbs bs fuel off g = (Except.ok (pins, offEnd), gOut) →
      ∀ p ∈ pins, p.isThruHolePin = (p.innerDiameter != 0) := by
  intro fuel
  induction fuel with
  | zero =>
    intro off g pins offEnd gOut h p hp
    simp only [PartDataParser.pinLoop] at h
    simp only [Prod.mk.injEq, Except.ok.injEq] at h
    obtain ⟨⟨h1, _⟩, _⟩ := h
    rw [← h1] at hp
    cases hp
  | succ n ih =>
    intro off g pins offEnd gOut h p hp
    simp only [PartDataParser.pinLoop] at h
    split at h
    case isTrue =>
      repeat' split at h
      all_goals simp at h
      rw [← h.1.1] at hp
      rcases List.mem_cons.mp hp with rfl | hp
      · rfl
      · exact ih _ _ _ _ _ (by assumption) p hp
    case isFalse =>
      simp only [Prod.mk.injEq, Except.ok.injEq] at h
      obtain ⟨⟨h1, _⟩, _⟩ := h
      rw [← h1] at hp
      cases hp

/-- The pin loop result (first component) does not depend on the initial
value of the module-level isThruHole_part state. -/
theorem pinLoop_fst (b : List Nat) (cbs bs fuel off : Nat) (g g' : Bool) :
    (PartDataParser.pinLoop b cbs bs fuel off g).1 =
      (PartDataParser.pinLoop b cbs bs fuel off g').1 := by
  cases fuel with
  | zero => rfl
  | succ n =>
    simp only [PartDataParser.pinLoop]
    repeat' split
    all_goals rfl

/-- The pin-array parser result does not depend on the initial global state. -/
theorem parseSubType09_fst (b : List Nat) (cbs off : Nat) (g g' : Bool) :
    (PartDataParser.parseSubType09 b cbs off g).1 =
      (PartDataParser.parseSubType09 b cbs off g').1 := by
  simp only [PartDataParser.parseSubType09]
  cases hu : getU32le b off with
  | error e => rfl
  | ok bs =>
    have hfst := pinLoop_fst b cbs bs (cbs + 1) (off + 4) g g'
    rcases h1 : PartDataParser.pinLoop b cbs bs (cbs + 1) (off + 4) g with ⟨r1, gg1⟩
    rcases h2 : PartDataParser.pinLoop b cbs bs (cbs + 1) (off + 4) g' with ⟨r2, gg2⟩
    rw [h1, h2] at hfst
    simp only at hfst
    subst hfst
    simp only [h1, h2]
    cases r1 with
    | error e => rfl
    | ok pr =>
      rcases pr with ⟨pins, offEnd⟩
      rfl

/-- The sub-block walk result does not depend on the initial global state. -/
theorem subWalk_fst (view : List Nat) (cbs : Nat) :
    ∀ fuel off (g g' : Bool),
      (PartDataParser.subWalk view cbs fuel off g).1 =
        (PartDataParser.subWalk view cbs fuel off g').1 := by
  intro fuel
  induction fuel with
  | zero => intro off g g'; rfl
  | succ n ih =>
    intro off g g'
    simp only [PartDataParser.subWalk]
    by_cases h1 : off + pinBlockSize < view.length
    · simp only [if_pos h1]
      by_cases h2 : off ≥ view.length
      · simp only [if_pos h2]
      · simp only [if_neg h2]
        split
        · cases hs : PartDataParser.parseSubType01 view (off+1) with
          | error e => rfl
          | ok so =>
            rcases so with ⟨sb, off2⟩
            have hrec := ih off2 g g'
            rcases hr1 : PartDataParser.subWalk view cbs n off2 g with ⟨r1, gg1⟩
            rcases hr2 : PartDataParser.subWalk view cbs n off2 g' with ⟨r2, gg2⟩
            rw [hr1, hr2] at hrec
            simp only at hrec
            subst hrec
            simp only [hr1, hr2]
            cases r1 <;> rfl
        · cases hs : PartDataParser.parseSubType05 view (off+1) with
          | error e => rfl
          | ok so =>
            rcases so with ⟨sb, off2⟩
            have hrec := ih off2 g g'
            rcases hr1 : PartDataParser.subWalk view cbs n off2 g with ⟨r1, gg1⟩
            rcases hr2 : PartDataParser.subWalk view cbs n off2 g' with ⟨r2, gg2⟩
            rw [hr1, hr2] at hrec
            simp only at hrec
            subst hrec
            simp only [hr1, hr2]
            cases r1 <;> rfl
        · cases hs : PartDataParser.parseSubType06 view (off+1) with
          | error e => rfl
          | ok so =>
            rcases so with ⟨sb, off2⟩
            have hrec := ih off2 g g'
            rcases hr1 : PartDataParser.subWalk view cbs n off2 g with ⟨r1, gg1⟩
            rcases hr2 : PartDataParser.subWalk view cbs n off2 g' with ⟨r2, gg2⟩
            rw [hr1, hr2] at hrec
            simp only at hrec
            subst hrec
            simp only [hr1, hr2]
            cases r1 <;> rfl
        · have h9 := parseSubType09_fst view cbs (off+1) g g'
          rcases h91 : PartDataParser.parseSubType09 view cbs (off+1) g with ⟨r1, g1⟩
          rcases h92 : PartDataParser.parseSubType09 view cbs (off+1) g' with ⟨r2, g2⟩
          rw [h91, h92] at h9
          simp only at h9
          subst h9
          cases r1 with
          | error e => rfl
          | ok so =>
            rcases so with ⟨sb, off2⟩
            have hrec := ih off2 g1 g2
            rcases hr1 : PartDataParser.subWalk view cbs n off2 g1 with ⟨rr1, gg1⟩
            rcases hr2 : PartDataParser.subWalk view cbs n off2 g2 with ⟨rr2, gg2⟩
            rw [hr1, hr2] at hrec
            simp only at hrec
            subst hrec
            simp only [hr1, hr2]
            cases rr1 <;> rfl
        · rfl
    · simp only [if_neg h1]

/-- The part parser result does not depend on the initial global state. -/
theorem partParse_fst (buf : List Nat) (t07 : Nat) (g g' : Bool) :
    (PartDataParser.parse buf t07 g).1 = (PartDataParser.parse buf t07 g').1 := by
  simp only [PartDataParser.parse]
  split
  · rfl
  · rename_i hdr off1 heq
    have hw := subWalk_fst (buf.take (4 + hdr.partSize)) t07 (4 + hdr.partSize + 1) off1 g g'
    rcases h1 : PartDataParser.subWalk (buf.take (4 + hdr.partSize)) t07
        (4 + hdr.partSize + 1) off1 g with ⟨r1, g1⟩
    rcases h2 : PartDataParser.subWalk (buf.take (4 + hdr.partSize)) t07
        (4 + hdr.partSize + 1) off1 g' with ⟨r2, g2⟩
    rw [h1, h2] at hw
    simp only at hw
    subst hw
    try simp only [h1, h2]
    cases r1 <;> rfl

/-- The DATA-block parser result does not depend on the initial global state. -/
theorem parseType07_fst (des : List Nat → List Nat) (b : List Nat) (off : Nat) (g g' : Bool) :
    (RawPCBParser.parseType07 des b off g).1 = (RawPCBParser.parseType07 des b off g').1 := by
  simp only [RawPCBParser.parseType07]
  split
  · rfl
  · rename_i blockSize hu
    split
    · rfl
    · rename_i encrypted hsl
      split
      · rename_i d hd
        have hp := partParse_fst d blockSize g g'
        rcases h1 : PartDataParser.parse d blockSize g with ⟨r1, g1⟩
        rcases h2 : PartDataParser.parse d blockSize g' with ⟨r2, g2⟩
        rw [h1, h2] at hp
        simp only at hp
        subst hp
        try simp only [h1, h2]
        cases r1 <;> rfl
      · rename_i e hd
        have hp := partParse_fst b blockSize g g'
        rcases h1 : PartDataParser.parse b blockSize g with ⟨r1, g1⟩
        rcases h2 : PartDataParser.parse b blockSize g' with ⟨r2, g2⟩
        rw [h1, h2] at hp
        simp only at hp
        subst hp
        try simp only [h1, h2]
        cases r1 <;> rfl

/-- The main-region walk result does not depend on the initial global state. -/
theorem walkLoop_fst (des : List Nat → List Nat) (buf : List Nat) (endOff : Nat) :
    ∀ fuel off (g g' : Bool),
      (RawPCBParser.walkLoop des buf endOff fuel off g).1 =
        (RawPCBParser.walkLoop des buf endOff fuel off g').1 := by
  intro fuel
  induction fuel with
  | zero => intro off g g'; rfl
  | succ n ih =>
    intro off g g'
    simp only [RawPCBParser.walkLoop]
    by_cases h1 : off < endOff ∧ off < buf.length
    · simp only [if_pos h1]
      cases hu : getU32le buf off with
      | error e => rfl
      | ok pad =>
        by_cases hp : pad = 0
        · simp only [if_pos hp]
          exact ih (off+4) g g'
        · simp only [if_neg hp]
          split
          · cases hs : RawPCBParser.parseType01 buf (off+1) with
            | error e => rfl
            | ok so =>
              rcases so with ⟨ob, off2⟩
              have hrec := ih off2 g g'
              rcases hr1 : RawPCBParser.walkLoop des buf endOff n off2 g with ⟨r1, g1⟩
              rcases hr2 : RawPCBParser.walkLoop des buf endOff n off2 g' with ⟨r2, g2⟩
              rw [hr1, hr2] at hrec
              simp only at hrec
              subst hrec
              try simp only [hr1, hr2]
              cases r1 <;> rfl
          · cases hs : RawPCBParser.parseType02 buf (off+1) with
            | error e => rfl
            | ok so =>
              rcases so with ⟨ob, off2⟩
              have hrec := ih off2 g g'
              rcases hr1 : RawPCBParser.walkLoop des buf endOff n off2 g with ⟨r1, g1⟩
              rcases hr2 : RawPCBParser.walkLoop des buf endOff n off2 g' with ⟨r2, g2⟩
              rw [hr1, hr2] at hrec
              simp only at hrec
              subst hrec
              try simp only [hr1, hr2]
              cases r1 <;> rfl
          · cases hs : RawPCBParser.parseType03 buf (off+1) with
            | error e => rfl
            | ok so =>
              rcases so with ⟨ob, off2⟩
              have hrec := ih off2 g g'
              rcases hr1 : RawPCBParser.walkLoop des buf endOff n off2 g with ⟨r1, g1⟩
              rcases hr2 : RawPCBParser.walkLoop des buf endOff n off2 g' with ⟨r2, g2⟩
              rw [hr1, hr2] at hrec
              simp only at hrec
              subst hrec
              try simp only [hr1, hr2]
              cases r1 <;> rfl
          · exact ih (off+2) g g'
          · cases hs : RawPCBParser.parseType05 buf (off+1) with
            | error e => rfl
            | ok so =>
              rcases so with ⟨ob, off2⟩
              have hrec := ih off2 g g'
              rcases hr1 : RawPCBParser.walkLoop des buf endOff n off2 g with ⟨r1, g1⟩
              rcases hr2 : RawPCBParser.walkLoop des buf endOff n off2 g' with ⟨r2, g2⟩
              rw [hr1, hr2] at hrec
              simp only at hrec
              subst hrec
              try simp only [hr1, hr2]
              cases r1 <;> rfl
          · cases hs : RawPCBParser.parseType06 buf (off+1) with
            | error e => rfl
            | ok so =>
              rcases so with ⟨ob, off2⟩
              have hrec := ih off2 g g'
              rcases hr1 : RawPCBParser.walkLoop des buf endOff n off2 g with ⟨r1, g1⟩
              rcases hr2 : RawPCBParser.walkLoop des buf endOff n off2 g' with ⟨r2, g2⟩
              rw [hr1, hr2] at hrec
              simp only at hrec
              subst hrec
              try simp only [hr1, hr2]
              cases r1 <;> rfl
          · have h7 := parseType07_fst des buf (off+1) g g'
            rcases h71 : RawPCBParser.parseType07 des buf (off+1) g with ⟨r1, g1⟩
            rcases h72 : RawPCBParser.parseType07 des buf (off+1) g' with ⟨r2, g2⟩
            rw [h71, h72] at h7
            simp only at h7
            subst h7
            try simp only [h71, h72]
            cases r1 with
            | error e => rfl
            | ok so =>
              rcases so with ⟨ob, off2⟩
              have hrec := ih off2 g1 g2
              rcases hr1 : RawPCBParser.walkLoop des buf endOff n off2 g1 with ⟨rr1, gg1⟩
              rcases hr2 : RawPCBParser.walkLoop des buf endOff n off2 g2 with ⟨rr2, gg2⟩
              rw [hr1, hr2] at hrec
              simp only at hrec
              subst hrec
              try simp only [hr1, hr2]
              cases rr1 <;> rfl
          · exact ih (off+2) g g'
          · cases hs : RawPCBParser.parseType09 buf (off+1) with
            | error e => rfl
            | ok so =>
              rcases so with ⟨ob, off2⟩
              have hrec := ih off2 g g'
              rcases hr1 : RawPCBParser.walkLoop des buf endOff n off2 g with ⟨r1, g1⟩
              rcases hr2 : RawPCBParser.walkLoop des buf endOff n off2 g' with ⟨r2, g2⟩
              rw [hr1, hr2] at hrec
              simp only at hrec
              subst hrec
              try simp only [hr1, hr2]
              cases r1 <;> rfl
          · exact ih (off+1) g g'
    · simp only [if_neg h1]

/-- C1 (counterexample): on the empty input, decode does not return a Board
with a diagnostics list; the RangeError from reading byte 0x10 propagates to
the caller as an error.  There is no diagnostics mechanism in the decoder at
all (its result is only { main_data_block }). -/
theorem c1_empty_input_no_board_no_diagnostics :
    (RawPCBParser.parse desId [] true).1 = Except.error (Err.overrun 0x10 1) := by
  decide

/-- C1 (amended): decode does not recover out-of-bounds reads; in particular
on every input shorter than 0x11 bytes the read of byte 0x10 at the top of
parse throws, and the exception propagates to the caller. -/
theorem c1_short_input_propagates_overrun (des : List Nat → List Nat) (b : List Nat)
    (g : Bool) (h : b.length ≤ 0x10) :
    (RawPCBParser.parse des b g).1 = Except.error (Err.overrun 0x10 1) := by
  simp only [RawPCBParser.parse, xorPhase, getU8]
  rw [if_neg (by omega)]

/-- C1 witness: the hypothesis holds for the concrete 3-byte input. -/
theorem c1_short_input_propagates_overrun_witness :
    c1wit.length ≤ 0x10 ∧
      (RawPCBParser.parse desId c1wit true).1 = Except.error (Err.overrun 0x10 1) :=
  ⟨by decide, c1_short_input_propagates_overrun desId c1wit true (by decide)⟩

/-- C2 (amended): when the DES decryption of a DATA block's ciphertext fails,
parseType07 still emits a DATA entity whose encrypted_data and decrypted_data
both equal the raw block bytes, and then still runs the part parser — on the
WHOLE file buffer from offset 0 (decryptedData.buffer aliasing) — so the
parsed sub-blocks are whatever those bytes parse to, not necessarily empty
(and parsed_data is null only if that parse throws). -/
theorem c2_decrypt_failure_preserves_ciphertext_reparses_raw
    (des : List Nat → List Nat) (buf : List Nat) (off : Nat) (g : Bool)
    (bs : Nat) (ct : List Nat) (e0 : DecryptError)
    (h1 : getU32le buf off = Except.ok bs)
    (h2 : bytesSlice buf (off+4) bs = Except.ok ct)
    (h3 : desDecrypt des ct = Except.error e0) :
    RawPCBParser.parseType07 des buf off g =
      (match PartDataParser.parse buf bs g with
       | (Except.ok r, g2) =>
         (Except.ok (some (Block.data ⟨bs, ct, ct, some r⟩), off + 4 + bs), g2)
       | (Except.error _, g2) =>
         (Except.ok (some (Block.data ⟨bs, ct, ct, none⟩), off + 4 + bs), g2)) := by
  simp only [RawPCBParser.parseType07, h1, h2, h3]

/-- C2 witness: the hypotheses hold for the concrete c2file DATA block whose
7-byte ciphertext fails the DES length check. -/
theorem c2_decrypt_failure_preserves_ciphertext_reparses_raw_witness :
    getU32le c2file 0x45 = Except.ok 7 ∧
    bytesSlice c2file (0x45+4) 7 = Except.ok c2ct ∧
    desDecrypt desId c2ct = Except.error DecryptError.badLength ∧
    RawPCBParser.parseType07 desId c2file 0x45 true =
      (match PartDataParser.parse c2file 7 true with
       | (Except.ok r, g2) =>
         (Except.ok (some (Block.data ⟨7, c2ct, c2ct, some r⟩), 0x45 + 4 + 7), g2)
       | (Except.error _, g2) =>
         (Except.ok (some (Block.data ⟨7, c2ct, c2ct, none⟩), 0x45 + 4 + 7), g2)) :=
  ⟨by decide, by decide, by decide,
    c2_decrypt_failure_preserves_ciphertext_reparses_raw desId c2file 0x45 true 7 c2ct
      DecryptError.badLength (by decide) (by decide) (by decide)⟩

/-- C2 (counterexample): on c2file the DATA block's decryption fails
(BadLength), yet the emitted Part's parsed sub-block list is NOT empty — the
raw bytes of the file parse to one sub_type_05 block — refuting the claim
that a decrypt failure leaves the parsed sub-blocks empty. -/
theorem c2_decrypt_failure_subblocks_nonempty :
    (RawPCBParser.parse desId c2file true).1 =
      Except.ok ⟨[Block.data ⟨7, c2ct, c2ct,
        some ⟨c2hdr, [SubBlock.sub05 0 0 0 0 0 0 0]⟩⟩]⟩ ∧
    desDecrypt desId c2ct = Except.error DecryptError.badLength ∧
    [SubBlock.sub05 0 0 0 0 0 0 0] ≠ ([] : List SubBlock) := by
  refine ⟨by decide, by decide, by decide⟩

/-- C3 (counterexample): in c3file the main region starts with the unknown
tag 0x0A and a SEGMENT block immediately after it; the walker does NOT
terminate at the unknown tag — it continues and decodes the segment, so the
board is not the empty board the claim predicts. -/
theorem c3_unknown_tag_does_not_terminate_walk :
    (RawPCBParser.parse desId c3file true).1 = Except.ok ⟨[Block.segment c3seg]⟩ ∧
    Board.mk [Block.segment c3seg] ≠ Board.mk [] := by
  refine ⟨by decide, by decide⟩

/-- C3 (amended): on a tag byte outside the known set {0x01..0x09} (with a
nonzero padding word), the walker logs a warning, consumes only the tag byte
and CONTINUES the walk at the next byte; it does not terminate, and blocks
after the unknown tag are still parsed. -/
theorem c3_unknown_tag_skips_byte_and_continues (des : List Nat → List Nat)
    (buf : List Nat) (endOff fuel off : Nat) (g : Bool) (pad : Nat)
    (h1 : off < endOff) (h2 : off < buf.length)
    (h3 : getU32le buf off = Except.ok pad) (h4 : pad ≠ 0)
    (h5 : buf.getD off 0 ∉ ([1, 2, 3, 4, 5, 6, 7, 8, 9] : List Nat)) :
    RawPCBParser.walkLoop des buf endOff (fuel+1) off g =
      RawPCBParser.walkLoop des buf endOff fuel (off+1) g := by
  simp only [RawPCBParser.walkLoop, if_pos (And.intro h1 h2), h3, if_neg h4]
  split <;> simp_all

/-- C3 witness: the hypotheses hold at offset 0x44 of c3file (tag 0x0A). -/
theorem c3_unknown_tag_skips_byte_and_continues_witness :
    getU32le c3file 0x44 = Except.ok 1836298 ∧
    c3file.getD 0x44 0 = 10 ∧
    RawPCBParser.walkLoop desId c3file 0x66 3 0x44 true =
      RawPCBParser.walkLoop desId c3file 0x66 2 0x45 true :=
  ⟨by decide, by decide,
    c3_unknown_tag_skips_byte_and_continues desId c3file 0x66 2 0x44 true 1836298
      (by decide) (by decide) (by decide) (by decide) (by decide)⟩

/-- C4 (confirmed): decode applies the XOR deobfuscation pass iff the byte at
offset 0x10 is nonzero.  On a clear file (byte 0x10 = 0) the pass is a
no-op.  When applied, with end the index of the first occurrence of the
11-byte sentinel (or the buffer length if absent), every byte at index
i < end is replaced by its XOR with buffer[0x10] and bytes at and after end
are unchanged. -/
theorem c4_xor_pass_iff_key_nonzero (b : List Nat) (hlen : 0x10 < b.length)
    (hbytes : ∀ v ∈ b, v < 256) :
    (b.getD 0x10 0 = 0 → xorPhase b = Except.ok b) ∧
    (b.getD 0x10 0 ≠ 0 → ∃ endIdx, isFirstSentinelEnd b endIdx ∧
      xorPhase b = Except.ok (xorApply b (b.getD 0x10 0) endIdx) ∧
      (xorApply b (b.getD 0x10 0) endIdx).length = b.length ∧
      (∀ i, i < endIdx →
        (xorApply b (b.getD 0x10 0) endIdx).getD i 0 = (b.getD i 0) ^^^ (b.getD 0x10 0)) ∧
      (∀ i, endIdx ≤ i → (xorApply b (b.getD 0x10 0) endIdx).getD i 0 = b.getD i 0)) := by
  have hget : getU8 b 0x10 = Except.ok (b.getD 0x10 0) := by
    simp [getU8, if_pos hlen]
  constructor
  · intro hk
    simp only [xorPhase, hget]
    rw [if_neg (not_not_intro hk)]
  · intro hk
    have hsent : xorSentinel ≠ [] := by simp [xorSentinel]
    have hspec := findSequence_spec b xorSentinel hsent
    set endIdx := (match findSequence b xorSentinel with
      | some i => i
      | none => b.length) with hend
    have hfirst : isFirstSentinelEnd b endIdx := by
      rcases hfd : findSequence b xorSentinel with _ | k
      · right
        rw [hfd] at hend
        exact ⟨hend, hspec.2 hfd⟩
      · left
        rw [hfd] at hend
        simpa [hend] using hspec.1 k hfd
    have hendle : endIdx ≤ b.length := by
      rcases hfirst with ⟨hocc, _⟩ | ⟨heq, _⟩
      · have := occursAt_length_le b xorSentinel endIdx hocc
        have : 0 < xorSentinel.length := by simp [xorSentinel]
        omega
      · omega
    refine ⟨endIdx, hfirst, ?_, xorApply_length b _ _, ?_, ?_⟩
    · simp only [xorPhase, hget]
      rw [if_pos hk]
    · intro i hi
      have hib : i < b.length := by omega
      rw [xorApply_getD b _ endIdx i hib, if_pos hi]
      have ha : b.getD i 0 < 256 := by
        rw [List.getD_eq_getElem b 0 hib]
        exact hbytes _ (List.getElem_mem hib)
      have hkk : b.getD 0x10 0 < 256 := by
        rw [List.getD_eq_getElem b 0 hlen]
        exact hbytes _ (List.getElem_mem hlen)
      exact Nat.mod_eq_of_lt (byte_xor_lt_256 _ _ ha hkk)
    · intro i hi
      by_cases hib : i < b.length
      · rw [xorApply_getD b _ endIdx i hib, if_neg (by omega)]
      · rw [List.getD_eq_default, List.getD_eq_default]
        · omega
        · rw [xorApply_length]
          omega

/-- C4 witness: the hypotheses hold for the concrete obfuscated 20-byte
input c4wit (key byte 0x5A, sentinel absent). -/
theorem c4_xor_pass_iff_key_nonzero_witness :
    (0x10 < c4wit.length ∧ ∀ v ∈ c4wit, v < 256) ∧
    ((c4wit.getD 0x10 0 = 0 → xorPhase c4wit = Except.ok c4wit) ∧
     (c4wit.getD 0x10 0 ≠ 0 → ∃ endIdx, isFirstSentinelEnd c4wit endIdx ∧
       xorPhase c4wit = Except.ok (xorApply c4wit (c4wit.getD 0x10 0) endIdx) ∧
       (xorApply c4wit (c4wit.getD 0x10 0) endIdx).length = c4wit.length ∧
       (∀ i, i < endIdx →
         (xorApply c4wit (c4wit.getD 0x10 0) endIdx).getD i 0 =
           (c4wit.getD i 0) ^^^ (c4wit.getD 0x10 0)) ∧
       (∀ i, endIdx ≤ i →
         (xorApply c4wit (c4wit.getD 0x10 0) endIdx).getD i 0 = c4wit.getD i 0))) :=
  ⟨⟨by decide, by decide⟩, c4_xor_pass_iff_key_nonzero c4wit (by decide) (by decide)⟩

/-- C5 (counterexample): in c5file the main region is two bytes, the tag
0x04 at 0x44 followed by the byte 0x05 at 0x45, and a parseable SEGMENT
payload follows.  The actual walk consumes TWO bytes for the 0x04 tag and
ends at the region boundary with an empty board; had the walk resumed at the
byte immediately following the tag byte (0x45), as the claim states, it
would have decoded the SEGMENT there (second conjunct). -/
theorem c5_tag04_payload_byte_consumed :
    (RawPCBParser.parse desId c5file true).1 = Except.ok ⟨[]⟩ ∧
    (RawPCBParser.walkLoop desId c5file 0x46 2 0x45 true).1 =
      Except.ok [Block.segment c5seg] ∧
    Board.mk [] ≠ Board.mk [Block.segment c5seg] := by
  refine ⟨by decide, by decide, by decide⟩

/-- C5 (amended): on tags 0x04 and 0x08 the walker consumes exactly TWO
bytes — the tag byte plus one more byte skipped by the inline handler
(this.offset += 1) — appends no entity, and resumes at the tag byte + 2. -/
theorem c5_tag04_08_consumes_two_bytes (des : List Nat → List Nat) (buf : List Nat)
    (endOff fuel off : Nat) (g : Bool) (pad : Nat)
    (h1 : off < endOff) (h2 : off < buf.length)
    (h3 : getU32le buf off = Except.ok pad) (h4 : pad ≠ 0)
    (h5 : buf.getD off 0 = 4 ∨ buf.getD off 0 = 8) :
    RawPCBParser.walkLoop des buf endOff (fuel+1) off g =
      RawPCBParser.walkLoop des buf endOff fuel (off+2) g := by
  simp only [RawPCBParser.walkLoop, if_pos (And.intro h1 h2), h3, if_neg h4]
  rcases h5 with h5 | h5 <;> rw [h5]

/-- C5 witness: the hypotheses hold at offset 0x44 of c5file (tag 0x04). -/
theorem c5_tag04_08_consumes_two_bytes_witness :
    getU32le c5file 0x44 = Except.ok 1836292 ∧
    c5file.getD 0x44 0 = 4 ∧
    RawPCBParser.walkLoop desId c5file 0x46 2 0x44 true =
      RawPCBParser.walkLoop desId c5file 0x46 1 0x46 true :=
  ⟨by decide, by decide,
    c5_tag04_08_consumes_two_bytes desId c5file 0x46 1 0x44 true 1836292
      (by decide) (by decide) (by decide) (by decide) (Or.inl (by decide))⟩

/-- C6 (counterexample): decode does NOT leave the caller's buffer unchanged.
On the obfuscated 17-byte input c6file (key byte 1), the buffer the caller
holds after parse is the in-place XORed buffer, which differs from the
original input — there is no private mutable copy. -/
theorem c6_decode_mutates_caller_buffer :
    (RawPCBParser.parse desId c6file true).2.1 = List.replicate 16 1 ++ [0] ∧
    (RawPCBParser.parse desId c6file true).2.1 ≠ c6file := by
  refine ⟨by decide, by decide⟩

/-- C6 (amended): the XOR pass operates in place on the caller's buffer, not
on a copy: after decode the caller's buffer is exactly the output of the XOR
phase (or the untouched input when that phase throws before writing), and on
a clear file (byte 0x10 = 0) it is unchanged; all later passes only read. -/
theorem c6_buffer_after_decode_is_xored_in_place (des : List Nat → List Nat)
    (b : List Nat) (g : Bool) :
    (∀ b2, xorPhase b = Except.ok b2 → (RawPCBParser.parse des b g).2.1 = b2) ∧
    (∀ e, xorPhase b = Except.error e → (RawPCBParser.parse des b g).2.1 = b) ∧
    (0x10 < b.length → b.getD 0x10 0 = 0 → (RawPCBParser.parse des b g).2.1 = b) := by
  have key : ∀ b2, xorPhase b = Except.ok b2 → (RawPCBParser.parse des b g).2.1 = b2 := by
    intro b2 h
    simp only [RawPCBParser.parse, h]
    cases h1 : getU32le b2 0x40 with
    | error e => rfl
    | ok ms =>
      rcases h2 : RawPCBParser.walkLoop des b2 (0x44 + ms) (0x44 + ms + 1) 0x44 g with ⟨r, gg⟩
      cases r <;> simp [h2]
  refine ⟨key, ?_, ?_⟩
  · intro e h
    simp only [RawPCBParser.parse, h]
  · intro hl hk
    apply key
    simp only [xorPhase, getU8, if_pos hl]
    rw [if_neg (not_not_intro hk)]

/-- C6 witness: on the clear 17-byte input c6wit the caller's buffer is
unchanged after decode. -/
theorem c6_buffer_after_decode_is_xored_in_place_witness :
    0x10 < c6wit.length ∧ c6wit.getD 0x10 0 = 0 ∧
      (RawPCBParser.parse desId c6wit true).2.1 = c6wit :=
  ⟨by decide, by decide,
    (c6_buffer_after_decode_is_xored_in_place desId c6wit true).2.2 (by decide) (by decide)⟩

/-- C7 (confirmed): the part-block walker reads the PartHeader first, then
truncates its view to the first part_size + 4 bytes of its input buffer, and
reads a new sub-block tag only while cursor + pin_block_size < view length
(and cursor < view length): no sub-block is consumed beginning at or beyond
that bound, and an unknown sub-tag terminates the part walk. -/
theorem c7_part_walker_truncation_and_bounds (buf : List Nat) (t07 : Nat) (g : Bool) :
    (∀ hdr off1, PartDataParser.parseHeader buf = Except.ok (hdr, off1) →
      PartDataParser.parse buf t07 g =
        match PartDataParser.subWalk (buf.take (4 + hdr.partSize)) t07
            (4 + hdr.partSize + 1) off1 g with
        | (Except.error e, g2) => (Except.error e, g2)
        | (Except.ok subs, g2) => (Except.ok ⟨hdr, subs⟩, g2)) ∧
    (∀ fuel view cbs off g2, ¬ (off + pinBlockSize < view.length) →
      PartDataParser.subWalk view cbs fuel off g2 = (Except.ok [], g2)) ∧
    (∀ fuel view cbs off g2, off + pinBlockSize < view.length →
      view.getD off 0 ∉ ([1, 5, 6, 9] : List Nat) →
      PartDataParser.subWalk view cbs (fuel+1) off g2 = (Except.ok [], g2)) := by
  refine ⟨?_, ?_, ?_⟩
  · intro hdr off1 h
    simp only [PartDataParser.parse, h]
  · intro fuel view cbs off g2 h
    cases fuel <;> simp [PartDataParser.subWalk, h]
  · intro fuel view cbs off g2 h h2
    have hlt : ¬ (off ≥ view.length) := by
      simp only [pinBlockSize, Nat.add_zero] at h
      omega
    simp only [PartDataParser.subWalk, if_pos h, if_neg hlt]
    split <;> simp_all

/-- C7 witness: all three parts instantiated on concrete data — the header
of c7buf, an out-of-bounds cursor on the 2-byte view c7view, and the unknown
sub-tag 0 at its start. -/
theorem c7_part_walker_truncation_and_bounds_witness :
    (PartDataParser.parse c7buf 7 true =
      match PartDataParser.subWalk (c7buf.take (4 + c7hdr.partSize)) 7
          (4 + c7hdr.partSize + 1) 26 true with
      | (Except.error e, g2) => (Except.error e, g2)
      | (Except.ok subs, g2) => (Except.ok ⟨c7hdr, subs⟩, g2)) ∧
    PartDataParser.subWalk c7view 7 5 99 true = (Except.ok [], true) ∧
    PartDataParser.subWalk c7view 7 3 0 true = (Except.ok [], true) :=
  ⟨(c7_part_walker_truncation_and_bounds c7buf 7 true).1 c7hdr 26 (by decide),
   (c7_part_walker_truncation_and_bounds c7buf 7 true).2.1 5 c7view 7 99 true (by decide),
   (c7_part_walker_truncation_and_bounds c7buf 7 true).2.2 2 c7view 7 0 true
     (by decide) (by decide)⟩

/-- C8 (counterexample): the VIA in c8file has text size field 1, but the
byte 0xFF is invalid UTF-8, so TextDecoder emits U+FFFD and the emitted
string's UTF-8 byte length is 3, not 1 — refuting the claim that the
emitted string's byte length always equals the preceding size field. -/
theorem c8_string_byte_length_differs_from_size :
    (RawPCBParser.parse desId c8file true).1 = Except.ok ⟨[Block.via c8via]⟩ ∧
    String.utf8ByteSize c8via.viaText = 3 ∧
    String.utf8ByteSize c8via.viaText ≠ 1 := by
  refine ⟨by decide, by decide, by decide⟩

/-- C8 (amended): every string field read consumes exactly the size given by
the preceding u32 field — readString advances the cursor by exactly n and
decodes exactly the n bytes it consumed (lossily, so the emitted string's
own byte length may differ when those bytes are invalid UTF-8) — and a size
of 0 yields the empty string without reading any bytes (no bounds check is
even performed). -/
theorem c8_readString_consumes_exactly_size (b : List Nat) (off n : Nat) :
    (readString b off 0 = Except.ok ("", off)) ∧
    (∀ s off2, readString b off n = Except.ok (s, off2) →
      off2 = off + n ∧ s = utf8DecodeLossy ((b.drop off).take n)) := by
  constructor
  · simp [readString]
  · intro s off2 h
    by_cases hn : n = 0
    · subst hn
      simp only [readString, if_pos rfl, Except.ok.injEq, Prod.mk.injEq] at h
      rcases h with ⟨rfl, rfl⟩
      exact ⟨by omega, rfl⟩
    · simp only [readString, if_neg hn] at h
      cases hbs : bytesSlice b off n with
      | error e => rw [hbs] at h; cases h
      | ok bs =>
        rw [hbs] at h
        simp only [Except.ok.injEq, Prod.mk.injEq] at h
        obtain ⟨hs, ho⟩ := h
        have hbv : bs = (b.drop off).take n := by
          simp only [bytesSlice] at hbs
          split at hbs
          · injection hbs with hh
            exact hh.symm
          · cases hbs
        exact ⟨ho.symm, by rw [← hs, hbv]⟩

/-- C8 witness: reading one byte from the concrete buffer [65] consumes
exactly one byte and emits "A". -/
theorem c8_readString_consumes_exactly_size_witness :
    readString c8wit 0 0 = Except.ok ("", 0) ∧
    readString c8wit 0 1 = Except.ok ("A", 1) ∧
    (1 = 0 + 1 ∧ "A" = utf8DecodeLossy ((c8wit.drop 0).take 1)) :=
  ⟨(c8_readString_consumes_exactly_size c8wit 0 1).1, by decide,
   (c8_readString_consumes_exactly_size c8wit 0 1).2 "A" 1 (by decide)⟩

/-- C9 (confirmed): every pin decoded from a pin-array (sub-tag 0x09)
sub-block has is_thru_hole true iff its inner_diameter is nonzero. -/
theorem c9_pin_thru_hole_iff_inner_diameter_nonzero (b : List Nat) (cbs off : Nat)
    (g : Bool) (bs : Nat) (pins : List Pin) (off2 : Nat) (g2 : Bool)
    (h : PartDataParser.parseSubType09 b cbs off g =
      (Except.ok (SubBlock.sub09 bs pins, off2), g2)) :
    ∀ p ∈ pins, p.isThruHolePin = (p.innerDiameter != 0) := by
  intro p hp
  simp only [PartDataParser.parseSubType09] at h
  split at h
  · cases h
  · split at h
    · cases h
    · simp only [Prod.mk.injEq, Except.ok.injEq, SubBlock.sub09.injEq] at h
      obtain ⟨⟨⟨_, h1⟩, _⟩, _⟩ := h
      rw [← h1] at hp
      exact pinLoop_thru b cbs _ _ _ _ _ _ _ (by assumption) p hp

/-- C9 witness: the concrete pin array in c9view decodes to one through-hole
pin with inner_diameter 3. -/
theorem c9_pin_thru_hole_iff_inner_diameter_nonzero_witness :
    PartDataParser.parseSubType09 c9view 10 0 false =
      (Except.ok (SubBlock.sub09 0 [c9pin], 77), true) ∧
    c9pin.isThruHolePin = (c9pin.innerDiameter != 0) :=
  ⟨by decide,
   c9_pin_thru_hole_iff_inner_diameter_nonzero c9view 10 0 false 0 [c9pin] 77 true
     (by decide) c9pin (by simp)⟩

/-- C10 (confirmed): decode is deterministic — its board result and the
final buffer state depend only on the input bytes (and the abstract DES
block function), not on the value of the module-level isThruHole_part state
left behind by any earlier run, which is the only cross-run mutable state in
the decoder. -/
theorem c10_decode_deterministic (des : List Nat → List Nat) (b : List Nat) (g g' : Bool) :
    (RawPCBParser.parse des b g).1 = (RawPCBParser.parse des b g').1 ∧
      (RawPCBParser.parse des b g).2.1 = (RawPCBParser.parse des b g').2.1 := by
  simp only [RawPCBParser.parse]
  split
  · exact ⟨rfl, rfl⟩
  · rename_i b2 h0
    split
    · exact ⟨rfl, rfl⟩
    · rename_i ms h1
      have hw := walkLoop_fst des b2 (0x44 + ms) (0x44 + ms + 1) 0x44 g g'
      rcases h2 : RawPCBParser.walkLoop des b2 (0x44 + ms) (0x44 + ms + 1) 0x44 g with ⟨r1, g1⟩
      rcases h3 : RawPCBParser.walkLoop des b2 (0x44 + ms) (0x44 + ms + 1) 0x44 g' with ⟨r2, g2⟩
      rw [h2, h3] at hw
      simp only at hw
      subst hw
      try simp only [h2, h3]
      cases r1 <;> exact ⟨rfl, rfl⟩
